import Mathlib

/-!
Shallow embedding of
`moveit_ros/perception/pointcloud_octomap_updater/src/pointcloud_octomap_updater.cpp`
(the point-cloud octomap updater with frontier detection), together with the
octomap operations it relies on (`OccupancyOcTreeBase::updateNode` with change
detection, `coordToKey`/`keyToCoord`, `search`, `isNodeOccupied`).

Modelling decisions:
* an octree is abstracted to its leaf-level key-value map (`List (K3 × ℚ)`),
  which is the observable state through `search`/`updateNode`; pruning is a
  value-preserving internal optimization and is not modelled;
* voxel keys are unbounded integer triples (octomap uses offset `uint16`
  coordinates; no claim here depends on key-space overflow);
* log-odds values are rationals; points carry an explicit `nan` flag standing
  for `std::isnan` on any coordinate;
* the sensor-to-map transform is the identity (points arrive already
  transformed, per the external-collaborator contract), and ray traversal
  (`computeRayKeys`) is an explicit function parameter
  `rayFn : K3 → Option (List K3)` from an endpoint key to the traced keys,
  `none` standing for traversal failure.
-/

set_option autoImplicit false

namespace OctoUpdater

/-- An octomap voxel key: integer triple. -/
structure K3 where
  kx : Int
  ky : Int
  kz : Int
deriving DecidableEq, Repr

/-- A continuous 3D point. -/
structure Pt3 where
  x : ℚ
  y : ℚ
  z : ℚ
deriving DecidableEq, Repr

/-- Association-list lookup keyed by `K3` (octomap `search` / `std::map::find`). -/
def lookupA {α : Type} : List (K3 × α) → K3 → Option α
  | [], _ => none
  | (k', v) :: t, k => if k' = k then some v else lookupA t k

/-- Association-list update/insert keyed by `K3`. -/
def setA {α : Type} : List (K3 × α) → K3 → α → List (K3 × α)
  | [], k, v => [(k, v)]
  | (k', w) :: t, k, v => if k' = k then (k, v) :: t else (k', w) :: setA t k v

/-- Association-list erase keyed by `K3` (`std::map::erase`). -/
def eraseA {α : Type} (l : List (K3 × α)) (k : K3) : List (K3 × α) :=
  l.filter (fun e => decide (e.1 ≠ k))

/-- Key-set insert (`std::unordered_set::insert`): add the key if absent. -/
def ksInsert (l : List K3) (k : K3) : List K3 :=
  if k ∈ l then l else l ++ [k]

/-- Key-set erase (`std::unordered_set::erase`). -/
def ksErase (l : List K3) (k : K3) : List K3 :=
  l.filter (fun a => decide (a ≠ k))

/-- The configuration consumed by the updater: octree resolution and
log-odds parameters (octomap), the frontier bounding volume
(`x_min_` .. `z_max_`) and the rate limit (`max_update_rate_`). -/
structure Params where
  res : ℚ
  probHitLog : ℚ
  probMissLog : ℚ
  clampMin : ℚ
  clampMax : ℚ
  occThres : ℚ
  xMin : ℚ
  xMax : ℚ
  yMin : ℚ
  yMax : ℚ
  zMin : ℚ
  zMax : ℚ
  maxUpdateRate : ℚ

/-- octomap log-odds clamping (`updateNodeLogOdds`). -/
def clampQ (p : Params) (v : ℚ) : ℚ :=
  if v < p.clampMin then p.clampMin else if v > p.clampMax then p.clampMax else v

/-- octomap `coordToKey`: floor-quantization of each coordinate. -/
def coordToKey (p : Params) (x y z : ℚ) : K3 :=
  ⟨⌊x / p.res⌋, ⌊y / p.res⌋, ⌊z / p.res⌋⟩

/-- octomap `keyToCoord`: the voxel center of a key. -/
def keyToCoord (p : Params) (k : K3) : Pt3 :=
  ⟨((k.kx : ℚ) + 1/2) * p.res, ((k.ky : ℚ) + 1/2) * p.res, ((k.kz : ℚ) + 1/2) * p.res⟩

/-- An occupancy octree at leaf granularity: stored log-odds per key, the
change-detection flag (`use_change_detection`) and the recorded changed keys
(`changed_keys : KeyBoolMap`, the `Bool` marking "node was created"). -/
structure OcTree where
  val : List (K3 × ℚ)
  detect : Bool
  changedKeys : List (K3 × Bool)

/-- Value part of octomap `updateNode(key, log_odds_update)`: early abort when
the node is already saturated in the direction of the update, otherwise add
and clamp (a missing node is created with log-odds 0 before the update). -/
def updVal (p : Params) (m : List (K3 × ℚ)) (k : K3) (u : ℚ) : List (K3 × ℚ) :=
  match lookupA m k with
  | some v =>
    if (0 ≤ u ∧ p.clampMax ≤ v) ∨ (u ≤ 0 ∧ v ≤ p.clampMin) then m
    else setA m k (clampQ p (v + u))
  | none => setA m k (clampQ p u)

/-- Change-recording part of octomap `updateNode` (`updateNodeRecurs` leaf
case): when change detection is on, a created node is recorded with flag
`true`; an existing node whose occupancy classification flips is recorded
with flag `false`, and a second flip erases the record. -/
def updCK (p : Params) (m : List (K3 × ℚ)) (ck : List (K3 × Bool)) (detect : Bool)
    (k : K3) (u : ℚ) : List (K3 × Bool) :=
  if detect = false then ck
  else
    match lookupA m k with
    | some v =>
      if (0 ≤ u ∧ p.clampMax ≤ v) ∨ (u ≤ 0 ∧ v ≤ p.clampMin) then ck
      else
        let w := clampQ p (v + u)
        if (decide (v > p.occThres)) = (decide (w > p.occThres)) then ck
        else
          match lookupA ck k with
          | none => ck ++ [(k, false)]
          | some false => eraseA ck k
          | some true => ck
    | none =>
      match lookupA ck k with
      | none => ck ++ [(k, true)]
      | some _ => ck

/-- octomap `updateNode(key, log_odds_update)` on the whole tree state. -/
def updateNodeT (p : Params) (t : OcTree) (k : K3) (u : ℚ) : OcTree :=
  { val := updVal p t.val k u
    detect := t.detect
    changedKeys := updCK p t.val t.changedKeys t.detect k u }

/-- Whether a key has a stored node. -/
def domB (m : List (K3 × ℚ)) (k : K3) : Bool :=
  (lookupA m k).isSome

/-- octomap `isNodeOccupied` lifted to keys: `true` iff the key has a stored
node whose log-odds exceeds the occupancy threshold. -/
def occOf (p : Params) (m : List (K3 × ℚ)) (k : K3) : Bool :=
  match lookupA m k with
  | some v => decide (v > p.occThres)
  | none => false

/-- Per-point self-filter classification (`point_containment_filter::ShapeMask`). -/
inductive MaskV
  | inside
  | clip
  | outside
deriving DecidableEq, Repr

/-- One point of the input cloud: coordinates (already in the map frame) and
the externally supplied classification; `nan` stands for `std::isnan` on any
coordinate. -/
structure CloudPoint where
  px : ℚ
  py : ℚ
  pz : ℚ
  nan : Bool
  mask : MaskV
deriving DecidableEq, Repr

/-- The three endpoint key sets built by the point loop of `cloudMsgCallback`. -/
structure KeySets where
  occ : List K3
  model : List K3
  clip : List K3

/-- Loop body of the point loop: skip NaN points, otherwise bucket the point's
key by its mask label (INSIDE → model, CLIP → clip, else occupied). -/
def bucketStep (p : Params) (s : KeySets) (c : CloudPoint) : KeySets :=
  if c.nan then s
  else
    let k := coordToKey p c.px c.py c.pz
    match c.mask with
    | MaskV.inside => { s with model := ksInsert s.model k }
    | MaskV.clip => { s with clip := ksInsert s.clip k }
    | MaskV.outside => { s with occ := ksInsert s.occ k }

/-- The point loop of `cloudMsgCallback` (lines 255-296). -/
def buildKeySets (p : Params) (cloud : List CloudPoint) : KeySets :=
  cloud.foldl (bucketStep p) ⟨[], [], []⟩

/-- One ray of the free-cell computation: on traversal success insert every
traced key into the free set, on failure contribute nothing. -/
def rayStep (rayFn : K3 → Option (List K3)) (acc : List K3) (e : K3) : List K3 :=
  match rayFn e with
  | some l => l.foldl ksInsert acc
  | none => acc

/-- Free-cell computation of `cloudMsgCallback` (lines 298-311): rays to the
occupied endpoints, then the model endpoints, then the clip endpoints. -/
def buildFree (rayFn : K3 → Option (List K3)) (occ model clip : List K3) : List K3 :=
  let f1 := occ.foldl (rayStep rayFn) []
  let f2 := model.foldl (rayStep rayFn) f1
  clip.foldl (rayStep rayFn) f2

/-- Reconciliation step 1 (lines 321-323): erase every model key from the
occupied set. -/
def reconcileOcc (occ model : List K3) : List K3 :=
  model.foldl ksErase occ

/-- Reconciliation step 2 (lines 325-327): erase every (reconciled) occupied
key from the free set. -/
def reconcileFree (free occ2 : List K3) : List K3 :=
  occ2.foldl ksErase free

/-- The commit loops of `cloudMsgCallback` (lines 329-356) on one tree: a
miss update for every free key, a hit update for every occupied key, then the
forcing update `clampMin - clampMax` for every model key. -/
def commitTree (p : Params) (t : OcTree) (free occ model : List K3) : OcTree :=
  let t1 := free.foldl (fun a k => updateNodeT p a k p.probMissLog) t
  let t2 := occ.foldl (fun a k => updateNodeT p a k p.probHitLog) t1
  model.foldl (fun a k => updateNodeT p a k (p.clampMin - p.clampMax)) t2

/-- The updater's mutable state: the two octrees (`tree_` and
`frontier_tree_`), the change set (`changed_cell_`), the persistent frontier
set (`frontier_cell_`) and `last_update_time_`. -/
structure UpdaterState where
  tree : OcTree
  frontierTree : OcTree
  changedCell : List K3
  frontierCell : List K3
  lastUpdateTime : ℚ

/-- `trackChanges` (lines 398-410): enable change detection, clear
`changed_cell_`, copy the recorded changed keys into it, reset the recording. -/
def trackChangesS (st : UpdaterState) : UpdaterState :=
  let ft := { st.frontierTree with detect := true }
  let cc := ft.changedKeys.map Prod.fst
  { st with frontierTree := { ft with changedKeys := [] }, changedCell := cc }

/-- The neighbor offsets enumerated by the triple loop of `findFrontier`
(lines 444-455) and `mergeFrontier` (lines 584-595): the loop skips any
offset with `x == 0 || y == 0 || z == 0`. -/
def neighborOffsets : List K3 :=
  ([-1, 0, 1] : List Int).foldl
    (fun accx x =>
      ([-1, 0, 1] : List Int).foldl
        (fun accy y =>
          ([-1, 0, 1] : List Int).foldl
            (fun accz z =>
              if x = 0 ∨ y = 0 ∨ z = 0 then accz else accz ++ [⟨x, y, z⟩])
            accy)
        accx)
    []

/-- octomap `search` by continuous point: re-encode the point and look it up. -/
def searchPoint (p : Params) (t : OcTree) (q : Pt3) : Option ℚ :=
  lookupA t.val (coordToKey p q.x q.y q.z)

/-- The neighbor scan of `findFrontier`/`mergeFrontier`: for each enumerated
offset, convert the neighbor key to its center point and search it; a missing
node sets the unknown flag, a non-occupied node sets the free flag. -/
def unknownFreeFlags (p : Params) (t : OcTree) (k : K3) : Bool × Bool :=
  neighborOffsets.foldl
    (fun fl o =>
      match searchPoint p t (keyToCoord p ⟨k.kx + o.kx, k.ky + o.ky, k.kz + o.kz⟩) with
      | none => (true, fl.2)
      | some v => if v > p.occThres then fl else (fl.1, true))
    (false, false)

/-- The bounding-volume rejection test of `findFrontier` (lines 425-429). -/
def outBox (p : Params) (q : Pt3) : Bool :=
  decide (q.x < p.xMin ∨ q.x > p.xMax ∨ q.y < p.yMin ∨ q.y > p.yMax ∨
          q.z < p.zMin ∨ q.z > p.zMax)

/-- Loop body of `findFrontier` (lines 420-470): reject keys outside the
bounding volume, with no stored node, or occupied; insert a key whose
neighbor scan saw both an unknown and a free cell. -/
def findStep (p : Params) (t : OcTree) (acc : List K3) (k : K3) : List K3 :=
  if outBox p (keyToCoord p k) then acc
  else
    match lookupA t.val k with
    | none => acc
    | some v =>
      if v > p.occThres then acc
      else
        let fl := unknownFreeFlags p t k
        if fl.1 && fl.2 then ksInsert acc k else acc

/-- `findFrontier` (lines 412-473). -/
def findFrontierS (p : Params) (st : UpdaterState) : List K3 :=
  if st.changedCell = [] then []
  else st.changedCell.foldl (findStep p st.frontierTree) []

/-- Loop body of `mergeFrontier`'s re-validation (lines 569-609): a member
with no stored node is kept (`continue`), an occupied member is marked for
deletion, a non-occupied member is kept iff its neighbor scan saw both an
unknown and a free cell. -/
def mergeDelStep (p : Params) (t : OcTree) (ds : List K3) (k : K3) : List K3 :=
  match lookupA t.val k with
  | none => ds
  | some v =>
    if v > p.occThres then ksInsert ds k
    else
      let fl := unknownFreeFlags p t k
      if fl.1 && fl.2 then ds else ksInsert ds k

/-- `mergeFrontier` (lines 566-619): build the delete set by re-validating
every persistent member, erase it from `frontier_cell_`, then insert every
new candidate. -/
def mergeFrontierS (p : Params) (st : UpdaterState) (nf : List K3) : UpdaterState :=
  let ds := st.frontierCell.foldl (mergeDelStep p st.frontierTree) []
  let fc1 := ds.foldl ksErase st.frontierCell
  { st with frontierCell := nf.foldl ksInsert fc1 }

/-- The frontier phase of the callback (lines 373-377): detect on the drained
change set, then merge into the persistent set. -/
def frontierPhaseS (p : Params) (st : UpdaterState) : UpdaterState :=
  mergeFrontierS p st (findFrontierS p st)

/-- Everything `cloudMsgCallback` does after the rate-limit gate: build the
key sets, trace the rays, reconcile, commit to both trees, harvest changes,
detect and merge frontiers. -/
def processCloud (p : Params) (st : UpdaterState) (cloud : List CloudPoint)
    (rayFn : K3 → Option (List K3)) : UpdaterState :=
  let ks := buildKeySets p cloud
  let free0 := buildFree rayFn ks.occ ks.model ks.clip
  let occ2 := reconcileOcc ks.occ ks.model
  let free2 := reconcileFree free0 occ2
  let st1 := { st with
    tree := commitTree p st.tree free2 occ2 ks.model
    frontierTree := commitTree p st.frontierTree free2 occ2 ks.model }
  frontierPhaseS p (trackChangesS st1)

/-- `cloudMsgCallback` (lines 172-396): the rate-limit gate (lines 177-183)
drops the frame outright when the inter-frame interval has not elapsed;
otherwise the frame is processed (`now` is the single sampled clock value). -/
def cloudMsgCallback (p : Params) (st : UpdaterState) (now : ℚ)
    (cloud : List CloudPoint) (rayFn : K3 → Option (List K3)) : UpdaterState :=
  if p.maxUpdateRate > 0 ∧ now - st.lastUpdateTime ≤ 1 / p.maxUpdateRate then st
  else
    let st1 := if p.maxUpdateRate > 0 then { st with lastUpdateTime := now } else st
    processCloud p st1 cloud rayFn

/-- One incoming frame: clock value, point batch, and the ray-traversal
oracle of that frame. -/
structure Frame where
  now : ℚ
  cloud : List CloudPoint
  rayFn : K3 → Option (List K3)

/-- A run of the updater over a sequence of frames. -/
def runFrames (p : Params) (st : UpdaterState) (fs : List Frame) : UpdaterState :=
  fs.foldl (fun s f => cloudMsgCallback p s f.now f.cloud f.rayFn) st

/-! Derived definitions used to state and prove the claims. -/

/-- The stored-value invariant of an octomap tree: every stored log-odds lies
in the clamping interval. -/
def TreeInvV (p : Params) (m : List (K3 × ℚ)) : Prop :=
  ∀ k v, lookupA m k = some v → p.clampMin ≤ v ∧ v ≤ p.clampMax

/-- The frontier predicate shared by `findFrontier` and `mergeFrontier`'s
re-validation: the key has a stored node, it is not occupied, and its
neighbor scan saw both an unknown and a free cell. -/
def frontierPred (p : Params) (t : OcTree) (k : K3) : Bool :=
  match lookupA t.val k with
  | none => false
  | some v =>
    if v > p.occThres then false
    else ((unknownFreeFlags p t k).1 && (unknownFreeFlags p t k).2)

/-- The qualification test applied by `findFrontier` to a changed key. -/
def findCond (p : Params) (t : OcTree) (k : K3) : Bool :=
  !outBox p (keyToCoord p k) && frontierPred p t k

/-- The deletion test applied by `mergeFrontier` to a persistent member: the
key has a stored node and fails the frontier predicate (a member without a
stored node is never deleted). -/
def delCond (p : Params) (t : OcTree) (k : K3) : Bool :=
  (lookupA t.val k).isSome && !frontierPred p t k

/-- The commit's effect on the stored values alone. -/
def commitVal (p : Params) (m : List (K3 × ℚ)) (free occ model : List K3) :
    List (K3 × ℚ) :=
  let m1 := free.foldl (fun a k => updVal p a k p.probMissLog) m
  let m2 := occ.foldl (fun a k => updVal p a k p.probHitLog) m1
  model.foldl (fun a k => updVal p a k (p.clampMin - p.clampMax)) m2

/-- The change-recording invariant relating a tree in the middle of a commit
to the stored values `m0` it started from: recording is armed, the stored
domain only grew, a key is recorded with flag `true` exactly when its node
was created since `m0`, and with flag `false` exactly when it already had a
node and its occupancy classification differs from the one at `m0`. -/
def CKInv (p : Params) (m0 : List (K3 × ℚ)) (t : OcTree) : Prop :=
  t.detect = true ∧
  (∀ k, domB m0 k = true → domB t.val k = true) ∧
  (∀ k, lookupA t.changedKeys k = some true ↔
    (domB m0 k = false ∧ domB t.val k = true)) ∧
  (∀ k, lookupA t.changedKeys k = some false ↔
    (domB m0 k = true ∧ occOf p m0 k ≠ occOf p t.val k))

/-! Concrete fixtures used by the witness theorems. -/

/-- A concrete parameter set: resolution 1, hit/miss log-odds ±1, clamping
interval [-10, 10], occupancy threshold 0, a wide bounding volume, no rate
limit. -/
def wP : Params :=
  { res := 1, probHitLog := 1, probMissLog := -1, clampMin := -10, clampMax := 10,
    occThres := 0, xMin := -100, xMax := 100, yMin := -100, yMax := 100,
    zMin := -100, zMax := 100, maxUpdateRate := 0 }

/-- The same parameter set with a 2 Hz rate limit. -/
def wPrate : Params :=
  { wP with maxUpdateRate := 2 }

/-- A frontier tree fixture: the cell (0,0,0) is free, its corner neighbor
(1,1,1) is free, the other neighbors are unknown. -/
def wTreeFrontier : OcTree :=
  ⟨[(⟨0, 0, 0⟩, -1), (⟨1, 1, 1⟩, -1)], true, []⟩

/-- State fixture for frontier detection: (0,0,0) is in the change set. -/
def wStFind : UpdaterState :=
  ⟨⟨[], true, []⟩, wTreeFrontier, [⟨0, 0, 0⟩], [], 0⟩

/-- State fixture for the merge: (0,0,0) is a persistent frontier member that
still satisfies the frontier predicate. -/
def wStMerge : UpdaterState :=
  ⟨⟨[], true, []⟩, wTreeFrontier, [], [⟨0, 0, 0⟩], 0⟩

/-- State fixture: persistent frontier member (0,0,0) with no stored node. -/
def wStUnknown : UpdaterState :=
  ⟨⟨[], true, []⟩, ⟨[], true, []⟩, [], [⟨0, 0, 0⟩], 0⟩

/-- State fixture: persistent frontier member (0,0,0) stored occupied. -/
def wStOccupied : UpdaterState :=
  ⟨⟨[], true, []⟩, ⟨[(⟨0, 0, 0⟩, 5)], true, []⟩, [], [⟨0, 0, 0⟩], 0⟩

/-- Fully empty state with change detection armed on the frontier tree. -/
def wStEmpty : UpdaterState :=
  ⟨⟨[], true, []⟩, ⟨[], true, []⟩, [], [], 0⟩

/-- State fixture whose trees hold (0,0,0) at log-odds 1: occupied but far
from the clamping bound, so a hit update mutates the value without flipping
the occupancy classification. -/
def wStSat : UpdaterState :=
  ⟨⟨[(⟨0, 0, 0⟩, 1)], false, []⟩, ⟨[(⟨0, 0, 0⟩, 1)], true, []⟩, [], [], 0⟩

/-- A cloud with a single valid OUTSIDE point in the voxel of key (0,0,0). -/
def wCloudOut : List CloudPoint :=
  [⟨1/2, 1/2, 1/2, false, MaskV.outside⟩]

/-- A cloud with an INSIDE point and an OUTSIDE point, both in the voxel of
key (0,0,0). -/
def wCloudInOut : List CloudPoint :=
  [⟨1/2, 1/2, 1/2, false, MaskV.inside⟩, ⟨3/4, 1/2, 1/2, false, MaskV.outside⟩]

/-- A ray oracle that always succeeds with an empty key ray. -/
def wRayEmpty : K3 → Option (List K3) :=
  fun _ => some []

/-- A one-frame input built from the fixtures above. -/
def wFrame : Frame :=
  ⟨0, wCloudOut, wRayEmpty⟩

/-! ## Lemmas about the key-set operations -/

theorem mem_ksInsert (l : List K3) (k a : K3) :
    a ∈ ksInsert l k ↔ a ∈ l ∨ a = k := by
  unfold ksInsert
  by_cases h : k ∈ l
  · simp only [if_pos h]
    constructor
    · exact Or.inl
    · rintro (ha | rfl)
      · exact ha
      · exact h
  · simp [if_neg h, List.mem_append]

theorem mem_ksErase (l : List K3) (k a : K3) :
    a ∈ ksErase l k ↔ a ∈ l ∧ a ≠ k := by
  unfold ksErase
  simp [List.mem_filter]

theorem mem_foldl_ksErase (l : List K3) (s : List K3) (a : K3) :
    a ∈ l.foldl ksErase s ↔ a ∈ s ∧ a ∉ l := by
  induction l generalizing s with
  | nil => simp
  | cons h t ih =>
    simp only [List.foldl_cons, ih, mem_ksErase, List.mem_cons]
    constructor
    · rintro ⟨⟨ha, hne⟩, hnt⟩
      exact ⟨ha, by simp [hne, hnt]⟩
    · rintro ⟨ha, hn⟩
      simp only [not_or] at hn
      exact ⟨⟨ha, hn.1⟩, hn.2⟩

theorem mem_foldl_ksInsert (l : List K3) (s : List K3) (a : K3) :
    a ∈ l.foldl ksInsert s ↔ a ∈ s ∨ a ∈ l := by
  induction l generalizing s with
  | nil => simp
  | cons h t ih =>
    simp only [List.foldl_cons, ih, mem_ksInsert, List.mem_cons]
    constructor
    · rintro (( ha | rfl) | ht)
      · exact Or.inl ha
      · exact Or.inr (Or.inl rfl)
      · exact Or.inr (Or.inr ht)
    · rintro (ha | (rfl | ht))
      · exact Or.inl (Or.inl ha)
      · exact Or.inl (Or.inr rfl)
      · exact Or.inr ht

theorem foldl_congr_fun {α β : Type} (f g : β → α → β) (l : List α) (b : β)
    (h : ∀ a ∈ l, ∀ x, f x a = g x a) : l.foldl f b = l.foldl g b := by
  induction l generalizing b with
  | nil => rfl
  | cons hd t ih =>
    simp only [List.foldl_cons]
    rw [h hd (List.mem_cons_self hd t)]
    exact ih _ (fun a ha x => h a (List.mem_cons_of_mem hd ha) x)

theorem mem_foldl_condInsert (c : K3 → Bool) (l : List K3) (s : List K3) (a : K3) :
    a ∈ l.foldl (fun acc k => if c k then ksInsert acc k else acc) s ↔
      a ∈ s ∨ (a ∈ l ∧ c a = true) := by
  induction l generalizing s with
  | nil => simp
  | cons h t ih =>
    simp only [List.foldl_cons, ih, List.mem_cons]
    by_cases hc : c h
    · simp only [if_pos hc, mem_ksInsert]
      constructor
      · rintro ((ha | rfl) | ⟨hat, hca⟩)
        · exact Or.inl ha
        · exact Or.inr ⟨Or.inl rfl, hc⟩
        · exact Or.inr ⟨Or.inr hat, hca⟩
      · rintro (ha | ⟨(rfl | hat), hca⟩)
        · exact Or.inl (Or.inl ha)
        · exact Or.inl (Or.inr rfl)
        · exact Or.inr ⟨hat, hca⟩
    · simp only [if_neg hc]
      constructor
      · rintro (ha | ⟨hat, hca⟩)
        · exact Or.inl ha
        · exact Or.inr ⟨Or.inr hat, hca⟩
      · rintro (ha | ⟨(rfl | hat), hca⟩)
        · exact Or.inl ha
        · exact absurd hca (by simpa using hc)
        · exact Or.inr ⟨hat, hca⟩

theorem foldl_condInsert_eq_of_none (c : K3 → Bool) (l : List K3) (s : List K3)
    (h : ∀ a ∈ l, c a = false) :
    l.foldl (fun acc k => if c k then ksInsert acc k else acc) s = s := by
  induction l generalizing s with
  | nil => rfl
  | cons hd t ih =>
    have hh : c hd = false := h hd (List.mem_cons_self hd t)
    simp only [List.foldl_cons, hh, Bool.false_eq_true, if_false]
    exact ih _ (fun a ha => h a (List.mem_cons_of_mem hd ha))

/-! ## Characterizations of the frontier detection and merge loops -/

theorem findStep_eq (p : Params) (t : OcTree) (acc : List K3) (k : K3) :
    findStep p t acc k = if findCond p t k then ksInsert acc k else acc := by
  unfold findStep findCond frontierPred
  by_cases hb : outBox p (keyToCoord p k)
  · simp [hb]
  · cases hl : lookupA t.val k with
    | none => simp [hb, hl]
    | some v =>
      by_cases ho : v > p.occThres
      · simp [hb, hl, ho]
      · by_cases hf : ((unknownFreeFlags p t k).1 && (unknownFreeFlags p t k).2) = true
        · simp [hb, hl, ho, hf]
        · simp [hb, hl, ho, hf]

theorem mem_findFrontierS (p : Params) (st : UpdaterState) (k : K3) :
    k ∈ findFrontierS p st ↔
      k ∈ st.changedCell ∧ findCond p st.frontierTree k = true := by
  unfold findFrontierS
  by_cases hcc : st.changedCell = []
  · simp [hcc]
  · simp only [hcc, if_false]
    rw [foldl_congr_fun (findStep p st.frontierTree)
      (fun acc k => if findCond p st.frontierTree k then ksInsert acc k else acc)
      st.changedCell [] (fun a _ x => findStep_eq p st.frontierTree x a)]
    rw [mem_foldl_condInsert]
    simp

theorem mergeDelStep_eq (p : Params) (t : OcTree) (ds : List K3) (k : K3) :
    mergeDelStep p t ds k = if delCond p t k then ksInsert ds k else ds := by
  unfold mergeDelStep delCond frontierPred
  cases hl : lookupA t.val k with
  | none => simp [hl]
  | some v =>
    by_cases ho : v > p.occThres
    · simp [hl, ho]
    · by_cases hf : ((unknownFreeFlags p t k).1 && (unknownFreeFlags p t k).2) = true
      · simp [hl, ho, hf]
      · simp [hl, ho, hf]

theorem mem_mergeFrontierS (p : Params) (st : UpdaterState) (nf : List K3) (k : K3) :
    k ∈ (mergeFrontierS p st nf).frontierCell ↔
      (k ∈ st.frontierCell ∧ delCond p st.frontierTree k = false) ∨ k ∈ nf := by
  unfold mergeFrontierS
  simp only
  rw [foldl_congr_fun (mergeDelStep p st.frontierTree)
    (fun acc k => if delCond p st.frontierTree k then ksInsert acc k else acc)
    st.frontierCell [] (fun a _ x => mergeDelStep_eq p st.frontierTree x a)]
  rw [mem_foldl_ksInsert, mem_foldl_ksErase, mem_foldl_condInsert]
  constructor
  · rintro (⟨hfc, hnd⟩ | hnf)
    · refine Or.inl ⟨hfc, ?_⟩
      rcases Bool.eq_false_or_eq_true (delCond p st.frontierTree k) with h | h
      · exact absurd (Or.inr ⟨hfc, h⟩) hnd
      · exact h
    · exact Or.inr hnf
  · rintro (⟨hfc, hnd⟩ | hnf)
    · refine Or.inl ⟨hfc, ?_⟩
      rintro (h | ⟨_, hd⟩)
      · exact absurd h (List.not_mem_nil k)
      · rw [hnd] at hd
        exact Bool.false_ne_true hd
    · exact Or.inr hnf

theorem mergeFrontierS_frontierTree (p : Params) (st : UpdaterState) (nf : List K3) :
    (mergeFrontierS p st nf).frontierTree = st.frontierTree := rfl

theorem mergeFrontierS_changedCell (p : Params) (st : UpdaterState) (nf : List K3) :
    (mergeFrontierS p st nf).changedCell = st.changedCell := rfl

theorem frontierPred_occOf (p : Params) (t : OcTree) (k : K3)
    (h : frontierPred p t k = true) : occOf p t.val k = false := by
  unfold frontierPred at h
  unfold occOf
  cases hl : lookupA t.val k with
  | none => simp
  | some v =>
    simp only [hl] at h
    by_cases ho : v > p.occThres
    · simp [ho] at h
    · simp [ho]

theorem frontierPred_isSome (p : Params) (t : OcTree) (k : K3)
    (h : frontierPred p t k = true) : (lookupA t.val k).isSome = true := by
  unfold frontierPred at h
  cases hl : lookupA t.val k with
  | none => simp [hl] at h
  | some v => simp [hl]

theorem delCond_eq_false_of_pred (p : Params) (t : OcTree) (k : K3)
    (h : frontierPred p t k = true) : delCond p t k = false := by
  unfold delCond
  simp [h]

theorem delCond_eq_false_of_none (p : Params) (t : OcTree) (k : K3)
    (h : lookupA t.val k = none) : delCond p t k = false := by
  unfold delCond
  simp [h]

theorem frontierPred_eq_false_of_occ (p : Params) (t : OcTree) (k : K3)
    (h : occOf p t.val k = true) : frontierPred p t k = false := by
  unfold occOf at h
  unfold frontierPred
  cases hl : lookupA t.val k with
  | none => simp [hl] at h
  | some v =>
    simp only [hl, decide_eq_true_eq] at h
    simp [hl, h]

theorem delCond_eq_true_of_occ (p : Params) (t : OcTree) (k : K3)
    (h : occOf p t.val k = true) : delCond p t k = true := by
  have hs : (lookupA t.val k).isSome = true := by
    unfold occOf at h
    cases hl : lookupA t.val k with
    | none => simp [hl] at h
    | some v => simp [hl]
  unfold delCond
  simp [hs, frontierPred_eq_false_of_occ p t k h]

/-! ## Lemmas about the free-cell (ray) computation -/

theorem mem_foldl_rayStep (rayFn : K3 → Option (List K3)) (l : List K3)
    (s : List K3) (k : K3) :
    k ∈ l.foldl (rayStep rayFn) s ↔
      k ∈ s ∨ ∃ e ∈ l, ∃ r, rayFn e = some r ∧ k ∈ r := by
  induction l generalizing s with
  | nil => simp
  | cons h t ih =>
    have hstep : k ∈ rayStep rayFn s h ↔ k ∈ s ∨ ∃ r, rayFn h = some r ∧ k ∈ r := by
      unfold rayStep
      cases hr : rayFn h with
      | none => simp
      | some rl =>
        rw [mem_foldl_ksInsert]
        simp
    simp only [List.foldl_cons, ih, hstep, List.mem_cons]
    constructor
    · rintro ((hs | ⟨r, hr, hkr⟩) | ⟨e, he, hre⟩)
      · exact Or.inl hs
      · exact Or.inr ⟨h, Or.inl rfl, r, hr, hkr⟩
      · exact Or.inr ⟨e, Or.inr he, hre⟩
    · rintro (hs | ⟨e, (rfl | he), hre⟩)
      · exact Or.inl (Or.inl hs)
      · exact Or.inl (Or.inr hre)
      · exact Or.inr ⟨e, he, hre⟩

/-! ## Lemmas about the stored-value update -/

theorem lookupA_setA_self {α : Type} (l : List (K3 × α)) (k : K3) (v : α) :
    lookupA (setA l k v) k = some v := by
  induction l with
  | nil => simp [setA, lookupA]
  | cons h t ih =>
    obtain ⟨k', w⟩ := h
    by_cases hk : k' = k
    · simp [setA, hk, lookupA]
    · simp [setA, hk, lookupA, ih]

theorem lookupA_setA_ne {α : Type} (l : List (K3 × α)) (k : K3) (v : α) (k' : K3)
    (h : k' ≠ k) : lookupA (setA l k v) k' = lookupA l k' := by
  induction l with
  | nil =>
    simp only [setA, lookupA]
    rw [if_neg (fun he => h he.symm)]
  | cons hd t ih =>
    obtain ⟨k2, w⟩ := hd
    by_cases hk : k2 = k
    · subst hk
      simp only [setA, if_pos rfl, lookupA]
      rw [if_neg (fun he => h he.symm), if_neg (fun he => h he.symm)]
    · simp only [setA, if_neg hk, lookupA]
      by_cases h2 : k2 = k'
      · simp [h2]
      · simp [h2, ih]

theorem updVal_ne (p : Params) (m : List (K3 × ℚ)) (k : K3) (u : ℚ) (k' : K3)
    (h : k' ≠ k) : lookupA (updVal p m k u) k' = lookupA m k' := by
  unfold updVal
  cases hl : lookupA m k with
  | none => exact lookupA_setA_ne m k _ k' h
  | some v =>
    by_cases ha : (0 ≤ u ∧ p.clampMax ≤ v) ∨ (u ≤ 0 ∧ v ≤ p.clampMin)
    · simp [ha]
    · simp only [ha, if_false]
      exact lookupA_setA_ne m k _ k' h

theorem clampQ_bounds (p : Params) (v : ℚ) (h : p.clampMin ≤ p.clampMax) :
    p.clampMin ≤ clampQ p v ∧ clampQ p v ≤ p.clampMax := by
  unfold clampQ
  split_ifs with h1 h2
  · exact ⟨le_refl _, h⟩
  · exact ⟨h, le_refl _⟩
  · exact ⟨not_lt.1 h1, not_lt.1 h2⟩

theorem clampQ_of_le_min (p : Params) (v : ℚ) (hmm : p.clampMin ≤ p.clampMax)
    (h : v ≤ p.clampMin) : clampQ p v = p.clampMin := by
  unfold clampQ
  split_ifs with h1 h2
  · rfl
  · linarith
  · linarith

theorem updVal_inv (p : Params) (m : List (K3 × ℚ)) (k : K3) (u : ℚ)
    (hmm : p.clampMin ≤ p.clampMax) (hi : TreeInvV p m) :
    TreeInvV p (updVal p m k u) := by
  intro k' v' hv'
  unfold updVal at hv'
  cases hl : lookupA m k with
  | none =>
    simp only [hl] at hv'
    by_cases hk : k' = k
    · subst hk
      rw [lookupA_setA_self] at hv'
      cases hv'
      exact clampQ_bounds p u hmm
    · rw [lookupA_setA_ne m k _ k' hk] at hv'
      exact hi k' v' hv'
  | some v =>
    simp only [hl] at hv'
    by_cases ha : (0 ≤ u ∧ p.clampMax ≤ v) ∨ (u ≤ 0 ∧ v ≤ p.clampMin)
    · rw [if_pos ha] at hv'
      exact hi k' v' hv'
    · rw [if_neg ha] at hv'
      by_cases hk : k' = k
      · subst hk
        rw [lookupA_setA_self] at hv'
        cases hv'
        exact clampQ_bounds p _ hmm
      · rw [lookupA_setA_ne m k _ k' hk] at hv'
        exact hi k' v' hv'

theorem foldl_updVal_inv (p : Params) (u : ℚ) (l : List K3) (m : List (K3 × ℚ))
    (hmm : p.clampMin ≤ p.clampMax) (hi : TreeInvV p m) :
    TreeInvV p (l.foldl (fun a k => updVal p a k u) m) := by
  induction l generalizing m with
  | nil => exact hi
  | cons h t ih =>
    simp only [List.foldl_cons]
    exact ih _ (updVal_inv p m h u hmm hi)

theorem commitVal_inv (p : Params) (m : List (K3 × ℚ)) (free occ model : List K3)
    (hmm : p.clampMin ≤ p.clampMax) (hi : TreeInvV p m) :
    TreeInvV p (commitVal p m free occ model) := by
  unfold commitVal
  exact foldl_updVal_inv p _ model _ hmm
    (foldl_updVal_inv p _ occ _ hmm (foldl_updVal_inv p _ free _ hmm hi))

theorem updVal_model_forces (p : Params) (m : List (K3 × ℚ)) (X : K3)
    (hmm : p.clampMin ≤ p.clampMax) (hmax : 0 ≤ p.clampMax) (hi : TreeInvV p m) :
    lookupA (updVal p m X (p.clampMin - p.clampMax)) X = some p.clampMin := by
  unfold updVal
  cases hl : lookupA m X with
  | none =>
    simp only [hl]
    rw [lookupA_setA_self,
      clampQ_of_le_min p _ hmm (by linarith)]
  | some v =>
    obtain ⟨hv1, hv2⟩ := hi X v hl
    simp only [hl]
    by_cases ha : (0 ≤ p.clampMin - p.clampMax ∧ p.clampMax ≤ v) ∨
        (p.clampMin - p.clampMax ≤ 0 ∧ v ≤ p.clampMin)
    · rw [if_pos ha, hl]
      congr 1
      rcases ha with ⟨h1, h2⟩ | ⟨h1, h2⟩
      · linarith
      · linarith
    · rw [if_neg ha, lookupA_setA_self,
        clampQ_of_le_min p _ hmm (by linarith)]

theorem updVal_keeps_min (p : Params) (m : List (K3 × ℚ)) (X k : K3)
    (hmm : p.clampMin ≤ p.clampMax)
    (hX : lookupA m X = some p.clampMin) :
    lookupA (updVal p m k (p.clampMin - p.clampMax)) X = some p.clampMin := by
  by_cases hk : X = k
  · subst hk
    unfold updVal
    simp only [hX]
    rw [if_pos (Or.inr ⟨by linarith, le_refl p.clampMin⟩)]
    exact hX
  · rw [updVal_ne p m k _ X hk]
    exact hX

theorem foldl_keeps_min (p : Params) (l : List K3) (m : List (K3 × ℚ)) (X : K3)
    (hmm : p.clampMin ≤ p.clampMax)
    (hX : lookupA m X = some p.clampMin) :
    lookupA (l.foldl (fun a k => updVal p a k (p.clampMin - p.clampMax)) m) X =
      some p.clampMin := by
  induction l generalizing m with
  | nil => exact hX
  | cons h t ih =>
    simp only [List.foldl_cons]
    exact ih _ (updVal_keeps_min p m X h hmm hX)

theorem foldl_model_forces (p : Params) (l : List K3) (m : List (K3 × ℚ)) (X : K3)
    (hmm : p.clampMin ≤ p.clampMax) (hmax : 0 ≤ p.clampMax)
    (hi : TreeInvV p m) (hmem : X ∈ l) :
    lookupA (l.foldl (fun a k => updVal p a k (p.clampMin - p.clampMax)) m) X =
      some p.clampMin := by
  induction l generalizing m with
  | nil => cases hmem
  | cons h t ih =>
    simp only [List.foldl_cons]
    by_cases hX : X = h
    · subst hX
      exact foldl_keeps_min p t _ X hmm (updVal_model_forces p m X hmm hmax hi)
    · rcases List.mem_cons.1 hmem with he | ht
      · exact absurd he hX
      · exact ih _ (updVal_inv p m h _ hmm hi) ht

theorem commitVal_model_forces (p : Params) (m : List (K3 × ℚ))
    (free occ model : List K3) (X : K3)
    (hmm : p.clampMin ≤ p.clampMax) (hmax : 0 ≤ p.clampMax)
    (hi : TreeInvV p m) (hmem : X ∈ model) :
    lookupA (commitVal p m free occ model) X = some p.clampMin := by
  unfold commitVal
  exact foldl_model_forces p model _ X hmm hmax
    (foldl_updVal_inv p _ occ _ hmm (foldl_updVal_inv p _ free _ hmm hi)) hmem

/-! ## Projection lemmas for the commit and the frame pipeline -/

theorem foldl_updateNodeT_val (p : Params) (u : ℚ) (l : List K3) (t : OcTree) :
    (l.foldl (fun a k => updateNodeT p a k u) t).val =
      l.foldl (fun m k => updVal p m k u) t.val := by
  induction l generalizing t with
  | nil => rfl
  | cons h tl ih =>
    simp only [List.foldl_cons]
    rw [ih]
    rfl

theorem commitTree_val (p : Params) (t : OcTree) (free occ model : List K3) :
    (commitTree p t free occ model).val = commitVal p t.val free occ model := by
  unfold commitTree commitVal
  rw [foldl_updateNodeT_val, foldl_updateNodeT_val, foldl_updateNodeT_val]

theorem processCloud_tree (p : Params) (st : UpdaterState) (cloud : List CloudPoint)
    (rayFn : K3 → Option (List K3)) :
    (processCloud p st cloud rayFn).tree =
      commitTree p st.tree
        (reconcileFree
          (buildFree rayFn (buildKeySets p cloud).occ (buildKeySets p cloud).model
            (buildKeySets p cloud).clip)
          (reconcileOcc (buildKeySets p cloud).occ (buildKeySets p cloud).model))
        (reconcileOcc (buildKeySets p cloud).occ (buildKeySets p cloud).model)
        (buildKeySets p cloud).model := rfl

theorem processCloud_frontierTree_val (p : Params) (st : UpdaterState)
    (cloud : List CloudPoint) (rayFn : K3 → Option (List K3)) :
    (processCloud p st cloud rayFn).frontierTree.val =
      (commitTree p st.frontierTree
        (reconcileFree
          (buildFree rayFn (buildKeySets p cloud).occ (buildKeySets p cloud).model
            (buildKeySets p cloud).clip)
          (reconcileOcc (buildKeySets p cloud).occ (buildKeySets p cloud).model))
        (reconcileOcc (buildKeySets p cloud).occ (buildKeySets p cloud).model)
        (buildKeySets p cloud).model).val := rfl

theorem processCloud_changedCell (p : Params) (st : UpdaterState)
    (cloud : List CloudPoint) (rayFn : K3 → Option (List K3)) :
    (processCloud p st cloud rayFn).changedCell =
      (commitTree p st.frontierTree
        (reconcileFree
          (buildFree rayFn (buildKeySets p cloud).occ (buildKeySets p cloud).model
            (buildKeySets p cloud).clip)
          (reconcileOcc (buildKeySets p cloud).occ (buildKeySets p cloud).model))
        (reconcileOcc (buildKeySets p cloud).occ (buildKeySets p cloud).model)
        (buildKeySets p cloud).model).changedKeys.map Prod.fst := rfl

theorem processCloud_frontierTree_changedKeys (p : Params) (st : UpdaterState)
    (cloud : List CloudPoint) (rayFn : K3 → Option (List K3)) :
    (processCloud p st cloud rayFn).frontierTree.changedKeys = [] := rfl

/-! ## Lemmas about the point-bucketing loop -/

theorem bucketStep_model_mono (p : Params) (s : KeySets) (c : CloudPoint) (k : K3)
    (h : k ∈ s.model) : k ∈ (bucketStep p s c).model := by
  unfold bucketStep
  by_cases hn : c.nan
  · simpa [hn]
  · cases hm : c.mask
    · simp only [hn, Bool.false_eq_true, if_false, hm, mem_ksInsert]
      exact Or.inl h
    · simpa [hn, hm]
    · simpa [hn, hm]

theorem foldl_bucket_model_mono (p : Params) (cloud : List CloudPoint)
    (s : KeySets) (k : K3) (h : k ∈ s.model) :
    k ∈ (cloud.foldl (bucketStep p) s).model := by
  induction cloud generalizing s with
  | nil => exact h
  | cons c t ih =>
    simp only [List.foldl_cons]
    exact ih _ (bucketStep_model_mono p s c k h)

theorem mem_foldl_bucket_model (p : Params) (cloud : List CloudPoint)
    (c : CloudPoint) (hc : c ∈ cloud) (hn : c.nan = false)
    (hm : c.mask = MaskV.inside) (s : KeySets) :
    coordToKey p c.px c.py c.pz ∈ (cloud.foldl (bucketStep p) s).model := by
  induction cloud generalizing s with
  | nil => cases hc
  | cons hd t ih =>
    rcases List.mem_cons.1 hc with rfl | ht
    · simp only [List.foldl_cons]
      apply foldl_bucket_model_mono
      unfold bucketStep
      simp only [hn, Bool.false_eq_true, if_false, hm]
      exact (mem_ksInsert _ _ _).2 (Or.inr rfl)
    · simp only [List.foldl_cons]
      exact ih ht _

theorem mem_buildKeySets_model (p : Params) (cloud : List CloudPoint)
    (c : CloudPoint) (hc : c ∈ cloud) (hn : c.nan = false)
    (hm : c.mask = MaskV.inside) :
    coordToKey p c.px c.py c.pz ∈ (buildKeySets p cloud).model :=
  mem_foldl_bucket_model p cloud c hc hn hm ⟨[], [], []⟩

/-! ## Claim theorems (first group) -/

/-- C1: the claim states that the frontier predicate enumerates, for every
evaluated changed key, exactly the 26 offsets in {-1,0,1}^3 with at least
one nonzero component.  The code's guard `x == 0 || y == 0 || z == 0` skips
every offset that has any zero component, so only the 8 corner offsets are
enumerated: face neighbors such as (1,0,0) and (0,0,1) are skipped, while
the code's own comment announces "26 neighbours".  This theorem evaluates
the enumerated offset list. -/
theorem C1_neighborhood_is_8_corners :
    neighborOffsets.length = 8 ∧ (⟨1, 0, 0⟩ : K3) ∉ neighborOffsets ∧
    (⟨0, 0, 1⟩ : K3) ∉ neighborOffsets ∧ (⟨1, 1, 1⟩ : K3) ∈ neighborOffsets ∧
    (⟨0, 0, 0⟩ : K3) ∉ neighborOffsets := by
  decide

/-- C3: reconciliation removes every model key from the occupied set, and
then removes every reconciled-occupied key from the free set, so at commit
time the free and occupied sets are disjoint and no key observed occupied
receives a free-space update. -/
theorem C3_reconciliation_disjoint (occ model free : List K3) (k : K3) :
    (k ∈ model → k ∉ reconcileOcc occ model) ∧
    (k ∈ reconcileOcc occ model →
      k ∉ reconcileFree free (reconcileOcc occ model)) := by
  constructor
  · intro hm hmem
    unfold reconcileOcc at hmem
    rw [mem_foldl_ksErase] at hmem
    exact hmem.2 hm
  · intro ho hmem
    unfold reconcileFree at hmem
    rw [mem_foldl_ksErase] at hmem
    exact hmem.2 ho

/-- Witness for C3 at concrete sets: with occupied = {(0,0,0),(1,0,0)},
model = {(0,0,0)} and free = {(1,0,0)}, the model key is gone from the
reconciled occupied set and the occupied key is gone from the reconciled
free set. -/
theorem C3_reconciliation_disjoint_witness :
    (⟨0, 0, 0⟩ : K3) ∉ reconcileOcc [⟨0, 0, 0⟩, ⟨1, 0, 0⟩] [⟨0, 0, 0⟩] ∧
    (⟨1, 0, 0⟩ : K3) ∉
      reconcileFree [⟨1, 0, 0⟩] (reconcileOcc [⟨0, 0, 0⟩, ⟨1, 0, 0⟩] [⟨0, 0, 0⟩]) :=
  ⟨(C3_reconciliation_disjoint [⟨0, 0, 0⟩, ⟨1, 0, 0⟩] [⟨0, 0, 0⟩] [] ⟨0, 0, 0⟩).1
      (by decide),
   (C3_reconciliation_disjoint [⟨0, 0, 0⟩, ⟨1, 0, 0⟩] [⟨0, 0, 0⟩] [⟨1, 0, 0⟩]
      ⟨1, 0, 0⟩).2 (by decide)⟩

/-- C4: every key returned by `findFrontier` comes from the change set, is
not stored occupied, and its voxel center is not outside the bounding
volume. -/
theorem C4_findFrontier_sound (p : Params) (st : UpdaterState) (k : K3)
    (h : k ∈ findFrontierS p st) :
    k ∈ st.changedCell ∧ occOf p st.frontierTree.val k = false ∧
      outBox p (keyToCoord p k) = false := by
  rw [mem_findFrontierS] at h
  obtain ⟨hcc, hcond⟩ := h
  unfold findCond at hcond
  simp only [Bool.and_eq_true, Bool.not_eq_true'] at hcond
  exact ⟨hcc, frontierPred_occOf p st.frontierTree k hcond.2, hcond.1⟩

/-- Witness for C4: on the concrete detection fixture, (0,0,0) is returned
by `findFrontier` and indeed comes from the change set, is not occupied and
is inside the bounding volume. -/
theorem C4_findFrontier_sound_witness :
    (⟨0, 0, 0⟩ : K3) ∈ wStFind.changedCell ∧
    occOf wP wStFind.frontierTree.val ⟨0, 0, 0⟩ = false ∧
    outBox wP (keyToCoord wP ⟨0, 0, 0⟩) = false :=
  C4_findFrontier_sound wP wStFind ⟨0, 0, 0⟩ (by with_unfolding_all decide)

/-- C6: when the new-candidate set is empty and every persistent frontier
member still satisfies the frontier predicate on the current map, the merge
leaves the persistent frontier set unchanged. -/
theorem C6_merge_idempotent (p : Params) (st : UpdaterState)
    (h : ∀ k ∈ st.frontierCell, frontierPred p st.frontierTree k = true) :
    (mergeFrontierS p st []).frontierCell = st.frontierCell := by
  unfold mergeFrontierS
  simp only
  rw [foldl_congr_fun (mergeDelStep p st.frontierTree)
    (fun acc k => if delCond p st.frontierTree k then ksInsert acc k else acc)
    st.frontierCell [] (fun a _ x => mergeDelStep_eq p st.frontierTree x a)]
  rw [foldl_condInsert_eq_of_none _ _ _
    (fun a ha => delCond_eq_false_of_pred p st.frontierTree a (h a ha))]
  rfl

/-- Witness for C6: on the concrete merge fixture, whose single persistent
member still satisfies the predicate, the merge with an empty candidate set
returns the set unchanged. -/
theorem C6_merge_idempotent_witness :
    (mergeFrontierS wP wStMerge []).frontierCell = wStMerge.frontierCell :=
  C6_merge_idempotent wP wStMerge (by with_unfolding_all decide)

/-- C7: with a positive maximum update rate, a frame arriving before the
minimum inter-frame interval has elapsed is dropped with no state change at
all. -/
theorem C7_rate_limited_frame_dropped (p : Params) (st : UpdaterState) (now : ℚ)
    (cloud : List CloudPoint) (rayFn : K3 → Option (List K3))
    (hrate : p.maxUpdateRate > 0)
    (hint : now - st.lastUpdateTime ≤ 1 / p.maxUpdateRate) :
    cloudMsgCallback p st now cloud rayFn = st := by
  unfold cloudMsgCallback
  rw [if_pos ⟨hrate, hint⟩]

/-- Witness for C7: at 2 Hz a frame arriving 1/4 s after the last processed
frame is dropped and the whole state is returned unchanged. -/
theorem C7_rate_limited_frame_dropped_witness :
    cloudMsgCallback wPrate wStSat (1/4) wCloudOut wRayEmpty = wStSat :=
  C7_rate_limited_frame_dropped wPrate wStSat (1/4) wCloudOut wRayEmpty
    (by with_unfolding_all decide) (by with_unfolding_all decide)

/-- C8: a key lands in the free set exactly when some endpoint key of the
occupied, model or clip sets has a successful ray traversal whose traced
keys contain it: a failed traversal contributes nothing (and processing
continues with the other rays), a successful one is unioned in. -/
theorem C8_free_set_characterization (rayFn : K3 → Option (List K3))
    (occ model clip : List K3) (k : K3) :
    k ∈ buildFree rayFn occ model clip ↔
      ∃ e, (e ∈ occ ∨ e ∈ model ∨ e ∈ clip) ∧
        ∃ r, rayFn e = some r ∧ k ∈ r := by
  unfold buildFree
  simp only [mem_foldl_rayStep, List.not_mem_nil, false_or]
  constructor
  · rintro ((⟨e, he, hre⟩ | ⟨e, he, hre⟩) | ⟨e, he, hre⟩)
    · exact ⟨e, Or.inl he, hre⟩
    · exact ⟨e, Or.inr (Or.inl he), hre⟩
    · exact ⟨e, Or.inr (Or.inr he), hre⟩
  · rintro ⟨e, (he | he | he), hre⟩
    · exact Or.inl (Or.inl ⟨e, he, hre⟩)
    · exact Or.inl (Or.inr ⟨e, he, hre⟩)
    · exact Or.inr ⟨e, he, hre⟩

/-- C10: a persistent frontier member with no stored node survives the
frontier phase (detection followed by merge), while a member stored occupied
is removed and not re-added. -/
theorem C10_merge_unknown_kept_occupied_removed (p : Params) (st : UpdaterState)
    (k : K3) (hmem : k ∈ st.frontierCell) :
    (lookupA st.frontierTree.val k = none →
      k ∈ (frontierPhaseS p st).frontierCell) ∧
    (occOf p st.frontierTree.val k = true →
      k ∉ (frontierPhaseS p st).frontierCell) := by
  constructor
  · intro hn
    unfold frontierPhaseS
    rw [mem_mergeFrontierS]
    exact Or.inl ⟨hmem, delCond_eq_false_of_none p st.frontierTree k hn⟩
  · intro hocc
    unfold frontierPhaseS
    rw [mem_mergeFrontierS]
    rintro (⟨_, hd⟩ | hnf)
    · rw [delCond_eq_true_of_occ p st.frontierTree k hocc] at hd
      exact absurd hd (by simp)
    · rw [mem_findFrontierS] at hnf
      have hcond := hnf.2
      unfold findCond at hcond
      simp only [Bool.and_eq_true] at hcond
      have hp := hcond.2
      rw [frontierPred_eq_false_of_occ p st.frontierTree k hocc] at hp
      exact Bool.false_ne_true hp

/-- Witness for C10: on the unknown fixture the member (0,0,0) survives the
frontier phase; on the occupied fixture it is removed. -/
theorem C10_merge_unknown_kept_occupied_removed_witness :
    (⟨0, 0, 0⟩ : K3) ∈ (frontierPhaseS wP wStUnknown).frontierCell ∧
    (⟨0, 0, 0⟩ : K3) ∉ (frontierPhaseS wP wStOccupied).frontierCell :=
  ⟨(C10_merge_unknown_kept_occupied_removed wP wStUnknown ⟨0, 0, 0⟩
      (by decide)).1 (by decide),
   (C10_merge_unknown_kept_occupied_removed wP wStOccupied ⟨0, 0, 0⟩
      (by decide)).2 (by with_unfolding_all decide)⟩

/-- C2: when a voxel key X is hit both by an INSIDE-classified point (model)
and by another point classified as an ordinary obstacle (occupied), the frame
processing leaves X's stored log-odds at the clamping minimum in both trees,
and X is not OCCUPIED after the commit.  (Reconciliation removes X from the
occupied set, and the final model update `clampMin - clampMax` saturates X
down to `clampMin` whatever its prior value in [clampMin, clampMax].) -/
theorem C2_model_beats_occupied (p : Params) (st : UpdaterState)
    (cloud : List CloudPoint) (rayFn : K3 → Option (List K3)) (X : K3)
    (ca cb : CloudPoint)
    (hca : ca ∈ cloud) (hcan : ca.nan = false) (hcam : ca.mask = MaskV.inside)
    (hcak : coordToKey p ca.px ca.py ca.pz = X)
    (_hcb : cb ∈ cloud) (_hcbn : cb.nan = false) (_hcbm : cb.mask = MaskV.outside)
    (_hcbk : coordToKey p cb.px cb.py cb.pz = X)
    (hmm : p.clampMin ≤ p.clampMax) (hmax : 0 ≤ p.clampMax)
    (hthres : p.clampMin ≤ p.occThres)
    (hi1 : TreeInvV p st.tree.val) (hi2 : TreeInvV p st.frontierTree.val) :
    lookupA (processCloud p st cloud rayFn).tree.val X = some p.clampMin ∧
    lookupA (processCloud p st cloud rayFn).frontierTree.val X = some p.clampMin ∧
    occOf p (processCloud p st cloud rayFn).tree.val X = false ∧
    occOf p (processCloud p st cloud rayFn).frontierTree.val X = false := by
  have hmodel : X ∈ (buildKeySets p cloud).model := by
    rw [← hcak]
    exact mem_buildKeySets_model p cloud ca hca hcan hcam
  have h1 : lookupA (processCloud p st cloud rayFn).tree.val X = some p.clampMin := by
    rw [processCloud_tree, commitTree_val]
    exact commitVal_model_forces p st.tree.val _ _ _ X hmm hmax hi1 hmodel
  have h2 : lookupA (processCloud p st cloud rayFn).frontierTree.val X =
      some p.clampMin := by
    rw [processCloud_frontierTree_val, commitTree_val]
    exact commitVal_model_forces p st.frontierTree.val _ _ _ X hmm hmax hi2 hmodel
  have hocc1 : occOf p (processCloud p st cloud rayFn).tree.val X = false := by
    unfold occOf
    simp only [h1, decide_eq_false_iff_not]
    exact not_lt.2 hthres
  have hocc2 : occOf p (processCloud p st cloud rayFn).frontierTree.val X = false := by
    unfold occOf
    simp only [h2, decide_eq_false_iff_not]
    exact not_lt.2 hthres
  exact ⟨h1, h2, hocc1, hocc2⟩

/-- Witness for C2: starting from empty trees, a frame whose cloud has an
INSIDE point and an OUTSIDE point in the same voxel (0,0,0) leaves that voxel
at log-odds -10 = clampMin (not occupied) in both trees. -/
theorem C2_model_beats_occupied_witness :
    lookupA (processCloud wP wStEmpty wCloudInOut wRayEmpty).tree.val ⟨0, 0, 0⟩ =
      some wP.clampMin ∧
    lookupA (processCloud wP wStEmpty wCloudInOut wRayEmpty).frontierTree.val
      ⟨0, 0, 0⟩ = some wP.clampMin ∧
    occOf wP (processCloud wP wStEmpty wCloudInOut wRayEmpty).tree.val ⟨0, 0, 0⟩ =
      false ∧
    occOf wP (processCloud wP wStEmpty wCloudInOut wRayEmpty).frontierTree.val
      ⟨0, 0, 0⟩ = false :=
  C2_model_beats_occupied wP wStEmpty wCloudInOut wRayEmpty ⟨0, 0, 0⟩
    ⟨1/2, 1/2, 1/2, false, MaskV.inside⟩ ⟨3/4, 1/2, 1/2, false, MaskV.outside⟩
    (by with_unfolding_all decide) rfl rfl (by with_unfolding_all decide)
    (by with_unfolding_all decide) rfl rfl (by with_unfolding_all decide)
    (by with_unfolding_all decide) (by with_unfolding_all decide)
    (by with_unfolding_all decide)
    (by intro k v h; simp [wStEmpty, lookupA] at h)
    (by intro k v h; simp [wStEmpty, lookupA] at h)

/-! ## The two trees receive identical value updates -/

theorem processCloud_val_eq (p : Params) (st : UpdaterState) (cloud : List CloudPoint)
    (rayFn : K3 → Option (List K3)) (h : st.tree.val = st.frontierTree.val) :
    (processCloud p st cloud rayFn).tree.val =
      (processCloud p st cloud rayFn).frontierTree.val := by
  rw [processCloud_tree, commitTree_val, processCloud_frontierTree_val,
    commitTree_val, h]

theorem cloudMsgCallback_val_eq (p : Params) (st : UpdaterState) (now : ℚ)
    (cloud : List CloudPoint) (rayFn : K3 → Option (List K3))
    (h : st.tree.val = st.frontierTree.val) :
    (cloudMsgCallback p st now cloud rayFn).tree.val =
      (cloudMsgCallback p st now cloud rayFn).frontierTree.val := by
  unfold cloudMsgCallback
  by_cases hc : p.maxUpdateRate > 0 ∧ now - st.lastUpdateTime ≤ 1 / p.maxUpdateRate
  · rw [if_pos hc]
    exact h
  · rw [if_neg hc]
    by_cases hr : p.maxUpdateRate > 0
    · rw [if_pos hr]
      exact processCloud_val_eq p _ cloud rayFn h
    · rw [if_neg hr]
      exact processCloud_val_eq p st cloud rayFn h

/-- C9: the export tree and the frontier tree receive exactly the same value
updates in every frame (same keys, same deltas, same clamping), so two trees
whose stored values are equal remain value-equal after any sequence of
frames: the two-tree implementation refines a single consolidated map. -/
theorem C9_two_trees_stay_value_equal (p : Params) (st : UpdaterState)
    (fs : List Frame) (h : st.tree.val = st.frontierTree.val) :
    (runFrames p st fs).tree.val = (runFrames p st fs).frontierTree.val := by
  induction fs generalizing st with
  | nil => exact h
  | cons f t ih =>
    have hstep : runFrames p st (f :: t) =
        runFrames p (cloudMsgCallback p st f.now f.cloud f.rayFn) t := rfl
    rw [hstep]
    exact ih _ (cloudMsgCallback_val_eq p st f.now f.cloud f.rayFn h)

/-- Witness for C9: from the empty state (both trees empty, hence
value-equal), one concrete frame leaves the two trees value-equal. -/
theorem C9_two_trees_stay_value_equal_witness :
    (runFrames wP wStEmpty [wFrame]).tree.val =
      (runFrames wP wStEmpty [wFrame]).frontierTree.val :=
  C9_two_trees_stay_value_equal wP wStEmpty [wFrame] rfl

/-! ## Lemmas for the change-recording analysis -/

theorem lookupA_append_self {α : Type} (l : List (K3 × α)) (k : K3) (b : α)
    (h : lookupA l k = none) : lookupA (l ++ [(k, b)]) k = some b := by
  induction l with
  | nil => simp [lookupA]
  | cons hd t ih =>
    obtain ⟨k2, w⟩ := hd
    by_cases hk : k2 = k
    · rw [lookupA, if_pos hk] at h
      cases h
    · rw [lookupA, if_neg hk] at h
      simp only [List.cons_append, lookupA, if_neg hk]
      exact ih h

theorem lookupA_append_ne {α : Type} (l : List (K3 × α)) (k : K3) (b : α) (k' : K3)
    (h : k' ≠ k) : lookupA (l ++ [(k, b)]) k' = lookupA l k' := by
  induction l with
  | nil =>
    simp only [List.nil_append, lookupA]
    rw [if_neg (fun he => h he.symm)]
  | cons hd t ih =>
    obtain ⟨k2, w⟩ := hd
    by_cases hk : k2 = k'
    · simp [lookupA, hk]
    · simp only [List.cons_append, lookupA, if_neg hk]
      exact ih

theorem lookupA_eraseA_self {α : Type} (l : List (K3 × α)) (k : K3) :
    lookupA (eraseA l k) k = none := by
  induction l with
  | nil => rfl
  | cons hd t ih =>
    obtain ⟨k2, w⟩ := hd
    by_cases hk : k2 = k
    · simpa [eraseA, hk] using ih
    · simpa [eraseA, lookupA, hk] using ih

theorem lookupA_cons_ne {α : Type} (k2 : K3) (w : α) (t : List (K3 × α)) (k' : K3)
    (h : k2 ≠ k') : lookupA ((k2, w) :: t) k' = lookupA t k' := by
  rw [lookupA, if_neg h]

theorem lookupA_eraseA_ne {α : Type} (l : List (K3 × α)) (k : K3) (k' : K3)
    (h : k' ≠ k) : lookupA (eraseA l k) k' = lookupA l k' := by
  induction l with
  | nil => rfl
  | cons hd t ih =>
    obtain ⟨k2, w⟩ := hd
    by_cases hk : k2 = k
    · subst hk
      have he : eraseA ((k2, w) :: t) k2 = eraseA t k2 := by simp [eraseA]
      rw [he, ih, lookupA_cons_ne k2 w t k' (fun he2 => h he2.symm)]
    · have he : eraseA ((k2, w) :: t) k = (k2, w) :: eraseA t k := by
        simp [eraseA, hk]
      rw [he]
      by_cases h2 : k2 = k'
      · rw [lookupA, if_pos h2, lookupA, if_pos h2]
      · rw [lookupA_cons_ne k2 w _ k' h2, ih, lookupA_cons_ne k2 w t k' h2]

theorem mem_map_fst_of_lookupA {α : Type} (l : List (K3 × α)) (k : K3) (b : α)
    (h : lookupA l k = some b) : k ∈ l.map Prod.fst := by
  induction l with
  | nil => cases h
  | cons hd t ih =>
    obtain ⟨k2, w⟩ := hd
    by_cases hk : k2 = k
    · simp [hk]
    · rw [lookupA, if_neg hk] at h
      simp only [List.map_cons, List.mem_cons]
      exact Or.inr (ih h)

theorem domB_setA_self (m : List (K3 × ℚ)) (k : K3) (v : ℚ) :
    domB (setA m k v) k = true := by
  unfold domB
  rw [lookupA_setA_self]
  rfl

theorem domB_setA_ne (m : List (K3 × ℚ)) (k : K3) (v : ℚ) (k' : K3) (h : k' ≠ k) :
    domB (setA m k v) k' = domB m k' := by
  unfold domB
  rw [lookupA_setA_ne m k v k' h]

theorem occOf_setA_self (p : Params) (m : List (K3 × ℚ)) (k : K3) (v : ℚ) :
    occOf p (setA m k v) k = decide (v > p.occThres) := by
  unfold occOf
  rw [lookupA_setA_self]

theorem occOf_setA_ne (p : Params) (m : List (K3 × ℚ)) (k : K3) (v : ℚ) (k' : K3)
    (h : k' ≠ k) : occOf p (setA m k v) k' = occOf p m k' := by
  unfold occOf
  rw [lookupA_setA_ne m k v k' h]

theorem domB_eq_true_of_lookup (m : List (K3 × ℚ)) (k : K3) (v : ℚ)
    (h : lookupA m k = some v) : domB m k = true := by
  unfold domB
  rw [h]
  rfl

theorem occOf_eq_of_lookup (p : Params) (m : List (K3 × ℚ)) (k : K3) (v : ℚ)
    (h : lookupA m k = some v) : occOf p m k = decide (v > p.occThres) := by
  unfold occOf
  rw [h]

theorem CKInv_step (p : Params) (m0 : List (K3 × ℚ)) (t : OcTree) (k : K3) (u : ℚ)
    (h : CKInv p m0 t) : CKInv p m0 (updateNodeT p t k u) := by
  obtain ⟨hdet, hmono, htrue, hfalse⟩ := h
  have hd : (updateNodeT p t k u).detect = t.detect := rfl
  cases hl : lookupA t.val k with
  | none =>
    have hd0 : domB t.val k = false := by unfold domB; rw [hl]; rfl
    have hnm0 : domB m0 k = false := by
      cases hdm : domB m0 k
      · rfl
      · have hx := hmono k hdm
        rw [hd0] at hx
        simp at hx
    have hckk : lookupA t.changedKeys k = none := by
      cases hck2 : lookupA t.changedKeys k with
      | none => rfl
      | some b =>
        cases b
        · have hx := (hfalse k).1 hck2
          rw [hnm0] at hx
          simp at hx
        · have hx := (htrue k).1 hck2
          rw [hd0] at hx
          simp at hx
    have hval : (updateNodeT p t k u).val = setA t.val k (clampQ p u) := by
      unfold updateNodeT updVal
      simp [hl]
    have hck' : (updateNodeT p t k u).changedKeys = t.changedKeys ++ [(k, true)] := by
      unfold updateNodeT updCK
      simp [hdet, hl, hckk]
    refine ⟨by rw [hd]; exact hdet, ?_, ?_, ?_⟩
    · intro k' hk'
      rw [hval]
      by_cases hkk : k' = k
      · subst hkk
        exact domB_setA_self t.val k' _
      · rw [domB_setA_ne t.val k _ k' hkk]
        exact hmono k' hk'
    · intro k'
      rw [hval, hck']
      by_cases hkk : k' = k
      · subst hkk
        rw [lookupA_append_self t.changedKeys k' true hckk]
        constructor
        · intro _
          exact ⟨hnm0, domB_setA_self t.val k' _⟩
        · intro _
          rfl
      · rw [lookupA_append_ne t.changedKeys k true k' hkk,
          domB_setA_ne t.val k _ k' hkk]
        exact htrue k'
    · intro k'
      rw [hval, hck']
      by_cases hkk : k' = k
      · subst hkk
        rw [lookupA_append_self t.changedKeys k' true hckk]
        constructor
        · intro hx
          simp at hx
        · rintro ⟨h1, _⟩
          rw [hnm0] at h1
          simp at h1
      · rw [lookupA_append_ne t.changedKeys k true k' hkk,
          occOf_setA_ne p t.val k _ k' hkk]
        exact hfalse k'
  | some v =>
    have hdk : domB t.val k = true := domB_eq_true_of_lookup t.val k v hl
    have hotv : occOf p t.val k = decide (v > p.occThres) :=
      occOf_eq_of_lookup p t.val k v hl
    by_cases ha : (0 ≤ u ∧ p.clampMax ≤ v) ∨ (u ≤ 0 ∧ v ≤ p.clampMin)
    · have hval : (updateNodeT p t k u).val = t.val := by
        unfold updateNodeT updVal
        simp [hl, ha]
      have hck' : (updateNodeT p t k u).changedKeys = t.changedKeys := by
        unfold updateNodeT updCK
        simp [hdet, hl, ha]
      exact ⟨by rw [hd]; exact hdet, by rw [hval]; exact hmono,
        by rw [hval, hck']; exact htrue, by rw [hval, hck']; exact hfalse⟩
    · have hval : (updateNodeT p t k u).val = setA t.val k (clampQ p (v + u)) := by
        unfold updateNodeT updVal
        simp [hl, ha]
      by_cases hocc : (decide (v > p.occThres)) =
          (decide (clampQ p (v + u) > p.occThres))
      · have hck' : (updateNodeT p t k u).changedKeys = t.changedKeys := by
          unfold updateNodeT updCK
          simp [hdet, hl, ha, hocc]
        refine ⟨by rw [hd]; exact hdet, ?_, ?_, ?_⟩
        · intro k' hk'
          rw [hval]
          by_cases hkk : k' = k
          · subst hkk
            exact domB_setA_self t.val k' _
          · rw [domB_setA_ne t.val k _ k' hkk]
            exact hmono k' hk'
        · intro k'
          rw [hval, hck']
          by_cases hkk : k' = k
          · subst hkk
            constructor
            · intro hsome
              exact ⟨((htrue k').1 hsome).1, domB_setA_self t.val k' _⟩
            · rintro ⟨h1, _⟩
              exact (htrue k').2 ⟨h1, hdk⟩
          · rw [domB_setA_ne t.val k _ k' hkk]
            exact htrue k'
        · intro k'
          rw [hval, hck']
          by_cases hkk : k' = k
          · subst hkk
            rw [occOf_setA_self p t.val k' _, ← hocc, ← hotv]
            exact hfalse k'
          · rw [occOf_setA_ne p t.val k _ k' hkk]
            exact hfalse k'
      · have hoccval : occOf p (updateNodeT p t k u).val k =
            decide (clampQ p (v + u) > p.occThres) := by
          rw [hval]
          exact occOf_setA_self p t.val k _
        have hflip : occOf p t.val k ≠ occOf p (updateNodeT p t k u).val k := by
          rw [hotv, hoccval]
          exact hocc
        cases hck2 : lookupA t.changedKeys k with
        | none =>
          have hdm0 : domB m0 k = true := by
            cases hdm : domB m0 k
            · have hx := (htrue k).2 ⟨hdm, hdk⟩
              rw [hck2] at hx
              simp at hx
            · rfl
          have hocc0 : occOf p m0 k = occOf p t.val k := by
            by_cases hx : occOf p m0 k = occOf p t.val k
            · exact hx
            · have hy := (hfalse k).2 ⟨hdm0, hx⟩
              rw [hck2] at hy
              simp at hy
          have hck' : (updateNodeT p t k u).changedKeys =
              t.changedKeys ++ [(k, false)] := by
            unfold updateNodeT updCK
            simp [hdet, hl, ha, hocc, hck2]
          refine ⟨by rw [hd]; exact hdet, ?_, ?_, ?_⟩
          · intro k' hk'
            rw [hval]
            by_cases hkk : k' = k
            · subst hkk
              exact domB_setA_self t.val k' _
            · rw [domB_setA_ne t.val k _ k' hkk]
              exact hmono k' hk'
          · intro k'
            by_cases hkk : k' = k
            · subst hkk
              rw [hck', lookupA_append_self t.changedKeys k' false hck2]
              constructor
              · intro hx
                simp at hx
              · rintro ⟨h1, _⟩
                rw [hdm0] at h1
                simp at h1
            · rw [hck', lookupA_append_ne t.changedKeys k false k' hkk, hval,
                domB_setA_ne t.val k _ k' hkk]
              exact htrue k'
          · intro k'
            by_cases hkk : k' = k
            · subst hkk
              rw [hck', lookupA_append_self t.changedKeys k' false hck2]
              constructor
              · intro _
                refine ⟨hdm0, ?_⟩
                rw [hocc0]
                exact hflip
              · intro _
                rfl
            · rw [hck', lookupA_append_ne t.changedKeys k false k' hkk, hval,
                occOf_setA_ne p t.val k _ k' hkk]
              exact hfalse k'
        | some b =>
          cases b
          · obtain ⟨hdm0, hocc0ne⟩ := (hfalse k).1 hck2
            have hck' : (updateNodeT p t k u).changedKeys = eraseA t.changedKeys k := by
              unfold updateNodeT updCK
              simp [hdet, hl, ha, hocc, hck2]
            have hocc0eq : occOf p m0 k = occOf p (updateNodeT p t k u).val k := by
              cases hb0 : occOf p m0 k <;> cases hb1 : occOf p t.val k <;>
                cases hb2 : occOf p (updateNodeT p t k u).val k <;>
                first
                | (simp_all; linarith)
                | simp_all
            refine ⟨by rw [hd]; exact hdet, ?_, ?_, ?_⟩
            · intro k' hk'
              rw [hval]
              by_cases hkk : k' = k
              · subst hkk
                exact domB_setA_self t.val k' _
              · rw [domB_setA_ne t.val k _ k' hkk]
                exact hmono k' hk'
            · intro k'
              by_cases hkk : k' = k
              · subst hkk
                rw [hck', lookupA_eraseA_self t.changedKeys k']
                constructor
                · intro hx
                  simp at hx
                · rintro ⟨h1, _⟩
                  rw [hdm0] at h1
                  simp at h1
              · rw [hck', lookupA_eraseA_ne t.changedKeys k k' hkk, hval,
                  domB_setA_ne t.val k _ k' hkk]
                exact htrue k'
            · intro k'
              by_cases hkk : k' = k
              · subst hkk
                rw [hck', lookupA_eraseA_self t.changedKeys k']
                constructor
                · intro hx
                  simp at hx
                · rintro ⟨_, h2⟩
                  exact (h2 hocc0eq).elim
              · rw [hck', lookupA_eraseA_ne t.changedKeys k k' hkk, hval,
                  occOf_setA_ne p t.val k _ k' hkk]
                exact hfalse k'
          · obtain ⟨hdm0f, _⟩ := (htrue k).1 hck2
            have hck' : (updateNodeT p t k u).changedKeys = t.changedKeys := by
              unfold updateNodeT updCK
              simp [hdet, hl, ha, hocc, hck2]
            refine ⟨by rw [hd]; exact hdet, ?_, ?_, ?_⟩
            · intro k' hk'
              rw [hval]
              by_cases hkk : k' = k
              · subst hkk
                exact domB_setA_self t.val k' _
              · rw [domB_setA_ne t.val k _ k' hkk]
                exact hmono k' hk'
            · intro k'
              by_cases hkk : k' = k
              · subst hkk
                rw [hck', hck2, hval]
                constructor
                · intro _
                  exact ⟨hdm0f, domB_setA_self t.val k' _⟩
                · intro _
                  rfl
              · rw [hck', hval, domB_setA_ne t.val k _ k' hkk]
                exact htrue k'
            · intro k'
              by_cases hkk : k' = k
              · subst hkk
                rw [hck', hck2]
                constructor
                · intro hx
                  simp at hx
                · rintro ⟨h1, _⟩
                  rw [hdm0f] at h1
                  simp at h1
              · rw [hck', hval, occOf_setA_ne p t.val k _ k' hkk]
                exact hfalse k'

theorem CKInv_foldl (p : Params) (m0 : List (K3 × ℚ)) (u : ℚ) (l : List K3)
    (t : OcTree) (h : CKInv p m0 t) :
    CKInv p m0 (l.foldl (fun a k => updateNodeT p a k u) t) := by
  induction l generalizing t with
  | nil => exact h
  | cons hd tl ih =>
    simp only [List.foldl_cons]
    exact ih _ (CKInv_step p m0 t hd u h)

theorem CKInv_commitTree (p : Params) (m0 : List (K3 × ℚ)) (t : OcTree)
    (free occ model : List K3) (h : CKInv p m0 t) :
    CKInv p m0 (commitTree p t free occ model) := by
  unfold commitTree
  exact CKInv_foldl p m0 _ model _
    (CKInv_foldl p m0 _ occ _ (CKInv_foldl p m0 _ free _ h))

theorem CKInv_base (p : Params) (t : OcTree) (hdet : t.detect = true)
    (hck : t.changedKeys = []) : CKInv p t.val t := by
  refine ⟨hdet, fun k hk => hk, fun k => ?_, fun k => ?_⟩
  · rw [hck]
    constructor
    · intro hx
      simp [lookupA] at hx
    · rintro ⟨h1, h2⟩
      rw [h1] at h2
      simp at h2
  · rw [hck]
    constructor
    · intro hx
      simp [lookupA] at hx
    · rintro ⟨_, h2⟩
      exact absurd rfl h2

theorem CKInv_records (p : Params) (m0 : List (K3 × ℚ)) (t : OcTree) (k : K3)
    (h : CKInv p m0 t)
    (hflag : (domB m0 k = false ∧ domB t.val k = true) ∨
             (domB m0 k = true ∧ occOf p m0 k ≠ occOf p t.val k)) :
    k ∈ t.changedKeys.map Prod.fst := by
  obtain ⟨_, _, htrue, hfalse⟩ := h
  rcases hflag with hf | hf
  · exact mem_map_fst_of_lookupA t.changedKeys k true ((htrue k).2 hf)
  · exact mem_map_fst_of_lookupA t.changedKeys k false ((hfalse k).2 hf)

/-- C5 as stated fails on the code; this is the amended claim.  When the
frame starts with change detection armed and an empty recording map (which
is the steady state from the second frame on, since `trackChanges` arms
detection and resets the map every frame), the drained change set contains
every key whose node was created by that frame's commit and every key whose
occupied/free classification changed over the frame, and draining leaves the
recording map empty so nothing leaks into the next frame. -/
theorem C5_amended_drain_soundness (p : Params) (st : UpdaterState)
    (cloud : List CloudPoint) (rayFn : K3 → Option (List K3)) (k : K3)
    (hdet : st.frontierTree.detect = true)
    (hck : st.frontierTree.changedKeys = [])
    (hflag : (domB st.frontierTree.val k = false ∧
              domB (processCloud p st cloud rayFn).frontierTree.val k = true) ∨
             (domB st.frontierTree.val k = true ∧
              occOf p st.frontierTree.val k ≠
                occOf p (processCloud p st cloud rayFn).frontierTree.val k)) :
    k ∈ (processCloud p st cloud rayFn).changedCell ∧
    (processCloud p st cloud rayFn).frontierTree.changedKeys = [] := by
  rw [processCloud_frontierTree_val] at hflag
  constructor
  · rw [processCloud_changedCell]
    exact CKInv_records p st.frontierTree.val _ k
      (CKInv_commitTree p st.frontierTree.val st.frontierTree _ _ _
        (CKInv_base p st.frontierTree hdet hck)) hflag
  · exact processCloud_frontierTree_changedKeys p st cloud rayFn

/-- Witness for the amended C5: from the empty armed state, one frame with a
single OUTSIDE point creates the node (0,0,0); the drained change set
contains it, and the recording map is left empty. -/
theorem C5_amended_drain_soundness_witness :
    (⟨0, 0, 0⟩ : K3) ∈ (processCloud wP wStEmpty wCloudOut wRayEmpty).changedCell ∧
    (processCloud wP wStEmpty wCloudOut wRayEmpty).frontierTree.changedKeys = [] :=
  C5_amended_drain_soundness wP wStEmpty wCloudOut wRayEmpty ⟨0, 0, 0⟩ rfl rfl
    (Or.inl ⟨by with_unfolding_all decide, by with_unfolding_all decide⟩)

/-- Counterexample to C5 as stated: with change detection armed and the
recording map empty, a frame whose single occupied observation hits the
voxel (0,0,0) already stored at log-odds 1 mutates its stored value from 1
to 2, yet the drained change set is empty — octomap's change detection
records node creations and occupancy-state flips, not every value
mutation. -/
theorem C5_counterexample_value_mutation_not_drained :
    wStSat.frontierTree.detect = true ∧
    wStSat.frontierTree.changedKeys = [] ∧
    lookupA wStSat.frontierTree.val ⟨0, 0, 0⟩ = some 1 ∧
    lookupA (processCloud wP wStSat wCloudOut wRayEmpty).frontierTree.val
      ⟨0, 0, 0⟩ = some 2 ∧
    (processCloud wP wStSat wCloudOut wRayEmpty).changedCell = [] := by
  refine ⟨rfl, rfl, ?_, ?_, ?_⟩ <;> with_unfolding_all decide

end OctoUpdater
